import Mathlib

/-!
Verification development for the aftermath-market-maker repository.

The orchestrator (class MarketMaker), the exchange adapters and the CLI entry
points are present in the repository sources and are embedded below as pure
Lean functions: class fields become a state record, each method becomes a
function from the state (and the inputs the method reads from the outside
world) to a new state paired with the list of external requests it issues,
and every try/catch block is embedded by threading an explicit failure flag
for the call it guards.  JavaScript numbers are modelled as rationals except
for the fair-price EMA, whose update uses the exponential function and is
modelled over the reals.

The quoter (src/bots/mm/quoter.ts), the position manager
(src/bots/mm/position.ts) and the fair-price calculator
(src/pricing/fair-price.ts) are not among the available sources; the
definitions that stand for them are modelled from the specification and are
marked as such in their doc comments.
-/

namespace AftermathMM

/-- Order side, as the string union "buy" | "sell" of the sources. -/
inductive Side where
  | buy
  | sell
deriving DecidableEq, Repr

/-- Market metadata the quoter rounds against (tick size and lot size). -/
structure Market where
  tickSize : ℚ
  lotSize : ℚ
deriving DecidableEq, Repr

/-- The market-maker configuration fields the core logic reads
(src/bots/mm/config.ts via the MarketMakerConfig uses in index.ts). -/
structure MMConfig where
  spreadBps : ℚ
  takeProfitBps : ℚ
  orderSizeUsd : ℚ
  closeThresholdUsd : ℚ
  maxPositionUsd : ℚ
  updateThrottleMs : ℤ
  minMarginRatio : ℚ
deriving DecidableEq, Repr

/-- Round a price down to a multiple of the step (bid rounding). -/
def roundDownTo (step p : ℚ) : ℚ := step * (⌊p / step⌋ : ℤ)

/-- Round a price up to a multiple of the step (ask rounding). -/
def roundUpTo (step p : ℚ) : ℚ := step * (⌈p / step⌉ : ℤ)

/-- One side of a generated quote: price, size in base units, reduce-only flag. -/
structure QuoteSide where
  price : ℚ
  size : ℚ
  reduceOnly : Bool
deriving DecidableEq, Repr

/-- A generated two-sided quote; a side is none when suppressed. -/
structure Quote where
  bid : Option QuoteSide
  ask : Option QuoteSide
deriving DecidableEq, Repr

/-- A venue-agnostic order intent produced from a quote. -/
structure OrderIntent where
  side : Side
  price : ℚ
  size : ℚ
  reduceOnly : Bool
deriving DecidableEq, Repr

/-- Convert a USD notional to base units at a price, rounded down to the lot
size so the converted size never exceeds the intended notional. -/
def toBaseUnits (lotSize usd price : ℚ) : ℚ := roundDownTo lotSize (usd / price)

/-- Modelled from the spec: Quoter.generateQuotes of src/bots/mm/quoter.ts,
which is not among the available sources.  Steps follow the specification:
close mode when the absolute signed notional reaches closeThresholdUsd;
half-spread takeProfitBps in close mode else spreadBps; bid rounded down and
ask rounded up to the tick size; in close mode only the reducing side is
quoted with reduceOnly true and size capped at
min(orderSizeUsd, abs notional); in normal mode both sides are quoted except
that at or above maxPositionUsd the side increasing the position is
suppressed. -/
def generateQuotes (cfg : MMConfig) (mkt : Market) (fairPrice signedNotional : ℚ) : Quote :=
  let absNotional := |signedNotional|
  let halfSpread := if cfg.closeThresholdUsd ≤ absNotional then cfg.takeProfitBps else cfg.spreadBps
  let bidPrice := roundDownTo mkt.tickSize (fairPrice * (1 - halfSpread / 10000))
  let askPrice := roundUpTo mkt.tickSize (fairPrice * (1 + halfSpread / 10000))
  if cfg.closeThresholdUsd ≤ absNotional then
    if 0 < signedNotional then
      { bid := none,
        ask := some { price := askPrice,
                      size := toBaseUnits mkt.lotSize (min cfg.orderSizeUsd absNotional) askPrice,
                      reduceOnly := true } }
    else if signedNotional < 0 then
      { bid := some { price := bidPrice,
                      size := toBaseUnits mkt.lotSize (min cfg.orderSizeUsd absNotional) bidPrice,
                      reduceOnly := true },
        ask := none }
    else
      { bid := none, ask := none }
  else
    { bid :=
        if 0 < signedNotional ∧ cfg.maxPositionUsd ≤ absNotional then none
        else some { price := bidPrice,
                    size := toBaseUnits mkt.lotSize cfg.orderSizeUsd bidPrice,
                    reduceOnly := false },
      ask :=
        if signedNotional < 0 ∧ cfg.maxPositionUsd ≤ absNotional then none
        else some { price := askPrice,
                    size := toBaseUnits mkt.lotSize cfg.orderSizeUsd askPrice,
                    reduceOnly := false } }

/-- Modelled from the spec: Quoter.isOrderStale of src/bots/mm/quoter.ts,
which is not among the available sources.  A resting order is stale when its
relative deviation from the target price the current fair price would
produce for that side exceeds half the configured spread. -/
def isOrderStale (cfg : MMConfig) (mkt : Market) (orderPrice : ℚ) (side : Side)
    (fairPrice : ℚ) : Bool :=
  let target :=
    match side with
    | Side.buy => roundDownTo mkt.tickSize (fairPrice * (1 - cfg.spreadBps / 10000))
    | Side.sell => roundUpTo mkt.tickSize (fairPrice * (1 + cfg.spreadBps / 10000))
  decide (target * (cfg.spreadBps / 2) < 10000 * |orderPrice - target|)

/-- Modelled from the spec: Quoter.quoteToOrders of src/bots/mm/quoter.ts,
which is not among the available sources.  Emits zero to two order intents,
skipping null sides. -/
def quoteToOrders (q : Quote) : List OrderIntent :=
  (match q.bid with
   | none => []
   | some b => [{ side := Side.buy, price := b.price, size := b.size, reduceOnly := b.reduceOnly }]) ++
  (match q.ask with
   | none => []
   | some a => [{ side := Side.sell, price := a.price, size := a.size, reduceOnly := a.reduceOnly }])

/-- Modelled from the spec: PositionManager.isAtMax of src/bots/mm/position.ts,
which is not among the available sources: true when the absolute signed
notional reaches maxPositionUsd. -/
def isAtMax (cfg : MMConfig) (notionalUsd : ℚ) : Bool :=
  decide (cfg.maxPositionUsd ≤ |notionalUsd|)

/-- The quoter functions the MarketMaker dispatches to through its quoter
field; packaged as a record so orchestrator-level theorems hold for the
actual quoter regardless of its exact formulas. -/
structure QuoterFns where
  generateQuotes : ℚ → ℚ → Quote
  isOrderStale : ℚ → Side → ℚ → Bool
  quoteToOrders : Quote → List OrderIntent

/-- The spec-modelled quoter, bound to a configuration and a market. -/
def specQuoter (cfg : MMConfig) (mkt : Market) : QuoterFns where
  generateQuotes := generateQuotes cfg mkt
  isOrderStale := isOrderStale cfg mkt
  quoteToOrders := quoteToOrders

/-- The lifecycle states of MarketMakerState in src/bots/mm/index.ts. -/
inductive MMLifecycle where
  | stopped
  | connecting
  | warmingUp
  | running
  | paused
  | error
deriving DecidableEq, Repr

/-- A resting order as tracked in MarketMaker.currentOrders. -/
structure OrderRec where
  price : ℚ
  side : Side
  size : ℚ
deriving DecidableEq, Repr

/-- The mutable fields of class MarketMaker that the embedded methods read
or write (src/bots/mm/index.ts). -/
structure MMState where
  state : MMLifecycle
  currentOrders : List OrderRec
  errorCount : ℕ
  lastMarginRatio : ℚ
  lastUpdateTime : ℤ
  mainLoopActive : Bool
  orderSyncActive : Bool
  marginCheckActive : Bool
deriving DecidableEq, Repr

/-- The MarketMaker field initializers: state stopped, no tracked orders,
error count 0, last margin ratio 1.0, last update time 0, no timers. -/
def initMMState : MMState where
  state := MMLifecycle.stopped
  currentOrders := []
  errorCount := 0
  lastMarginRatio := 1
  lastUpdateTime := 0
  mainLoopActive := false
  orderSyncActive := false
  marginCheckActive := false

/-- The constant maxErrors field of class MarketMaker. -/
def maxErrors : ℕ := 10

/-- External requests the orchestrator issues to its collaborators. -/
inductive Action where
  | cancelAll
  | place (o : OrderIntent)
  | unsubscribe
  | exchangeDisconnect
  | feedDisconnect
deriving DecidableEq, Repr

/-- The account snapshot returned by IExchange.getAccount. -/
structure Account where
  equity : ℚ
  availableMargin : ℚ
deriving DecidableEq, Repr

/-- MarketMaker.cancelAllOrders: issues a cancel-all request for the symbol
and clears the tracked order list; its try/catch swallows a failure of the
exchange call, in which case the tracked list is left as it was. -/
def mmCancelAllOrders (cancelFails : Bool) (s : MMState) : MMState × List Action :=
  if cancelFails then (s, [Action.cancelAll])
  else ({ s with currentOrders := [] }, [Action.cancelAll])

/-- MarketMaker.checkMarginRatio: recomputes the margin ratio as
availableMargin / equity only when equity is positive, otherwise keeps the
stored ratio; below minMarginRatio a running maker pauses and cancels all
orders; a paused maker resumes only at or above minMarginRatio * 1.2. -/
def checkMarginRatio (cfg : MMConfig) (cancelFails : Bool) (acct : Account)
    (s : MMState) : MMState × List Action :=
  let r := if 0 < acct.equity then acct.availableMargin / acct.equity else s.lastMarginRatio
  let s1 := { s with lastMarginRatio := r }
  if r < cfg.minMarginRatio then
    if s1.state = MMLifecycle.running then
      mmCancelAllOrders cancelFails { s1 with state := MMLifecycle.paused }
    else (s1, [])
  else if s1.state = MMLifecycle.paused ∧ cfg.minMarginRatio * 1.2 ≤ r then
    ({ s1 with state := MMLifecycle.running }, [])
  else (s1, [])

/-- MarketMaker.handleError: increments the error counter and pauses once it
reaches maxErrors; nothing else is touched and no request is issued. -/
def handleError (s : MMState) : MMState × List Action :=
  let s1 := { s with errorCount := s.errorCount + 1 }
  if maxErrors ≤ s1.errorCount then ({ s1 with state := MMLifecycle.paused }, [])
  else (s1, [])

/-- MarketMaker.shouldUpdateOrders: update when no resting order is tracked;
otherwise re-read the fair price (false when the fair price is null or, by
JavaScript falsiness, zero) and update exactly when some tracked order is
stale under it. -/
def shouldUpdateOrders (qf : QuoterFns) (currentOrders : List OrderRec)
    (fairPrice : Option ℚ) : Bool :=
  if currentOrders.isEmpty then true
  else
    match fairPrice with
    | none => false
    | some fp =>
      if fp = 0 then false
      else currentOrders.any fun o => qf.isOrderStale o.price o.side fp

/-- The inputs a single quoting tick reads from the outside world. -/
structure TickEnv where
  now : ℤ
  fairPrice : Option ℚ
  signedNotional : ℚ
  cancelFails : Bool

/-- MarketMaker.runMainLoop: one quoting tick.  Skips unless running; skips
when throttled, when the fair price is null (or zero, by JavaScript
falsiness), or when the position is at max; generates quotes, and when
shouldUpdateOrders holds cancels all resting orders, places the new intents
(each placement guarded by its own try/catch) and resets the error counter. -/
def runMainLoop (cfg : MMConfig) (qf : QuoterFns) (env : TickEnv)
    (s : MMState) : MMState × List Action :=
  if s.state ≠ MMLifecycle.running then (s, [])
  else if env.now - s.lastUpdateTime < cfg.updateThrottleMs then (s, [])
  else
    let s1 := { s with lastUpdateTime := env.now }
    match env.fairPrice with
    | none => (s1, [])
    | some fp =>
      if fp = 0 then (s1, [])
      else if isAtMax cfg env.signedNotional then (s1, [])
      else
        let quote := qf.generateQuotes fp env.signedNotional
        if ¬ shouldUpdateOrders qf s1.currentOrders env.fairPrice then (s1, [])
        else
          let p := mmCancelAllOrders env.cancelFails s1
          let intents := qf.quoteToOrders quote
          ({ p.1 with errorCount := 0 }, p.2 ++ intents.map Action.place)

/-- The main-loop interval callback: runMainLoop with its catch handler, so
an unexpected exception inside the tick is routed to handleError instead of
crashing the process.  The throws flag models such an exception. -/
def mainLoopTick (cfg : MMConfig) (qf : QuoterFns) (throws : Bool)
    (env : TickEnv) (s : MMState) : MMState × List Action :=
  if throws then handleError s
  else runMainLoop cfg qf env s

/-- Which cleanup calls fail during MarketMaker.stop. -/
structure StopEnv where
  cancelFails : Bool
  unsubscribeFails : Bool
  disconnectFails : Bool
  feedFails : Bool
deriving DecidableEq, Repr

/-- MarketMaker.stop: clears the three timers, then runs three guarded
cleanup blocks — cancel all orders; unsubscribe the orderbook then
disconnect the exchange (one shared try/catch, so a failing unsubscribe
skips the exchange disconnect); disconnect the price feed — and always ends
with state stopped.  Every failure is swallowed, so the function is total:
stop never throws past itself. -/
def stop (env : StopEnv) (s : MMState) : MMState × List Action :=
  let s1 := { s with mainLoopActive := false, orderSyncActive := false,
                     marginCheckActive := false }
  let p := mmCancelAllOrders env.cancelFails s1
  let a2 := if env.unsubscribeFails then [Action.unsubscribe]
            else [Action.unsubscribe, Action.exchangeDisconnect]
  let a3 := [Action.feedDisconnect]
  ({ p.1 with state := MMLifecycle.stopped }, p.2 ++ a2 ++ a3)

/-- An open order on the Aftermath venue, identified by its order id. -/
structure AftOrder where
  id : ℕ
deriving DecidableEq, Repr

/-- A cancellation request the Aftermath adapter sends to the venue. -/
inductive AftAction where
  | cancelOrdersReq (ids : List ℕ)
deriving DecidableEq, Repr

/-- AftermathAdapter.cancelAllOrders with a symbol
(src/exchanges/aftermath/index.ts): fetch the open orders of the symbol's
market and, only when that list is non-empty, send one cancelOrders request
for their ids, which removes them from the venue.  The argument is the
venue's open-order list for the market; the result is the open-order list
after the call together with the cancellation requests sent. -/
def aftCancelAllOrders (openOrders : List AftOrder) : List AftOrder × List AftAction :=
  if 0 < openOrders.length then
    ([], [AftAction.cancelOrdersReq (openOrders.map AftOrder.id)])
  else (openOrders, [])

/-- Modelled from the spec: the EMA step of FairPriceCalculator.onSample in
src/pricing/fair-price.ts, which is not among the available sources.  A new
sample p after elapsed time dt moves the average by
alpha = 1 - exp(-dt / windowMs). -/
noncomputable def emaStep (windowMs ema p dt : ℝ) : ℝ :=
  ema + (1 - Real.exp (-(dt / windowMs))) * (p - ema)

/-- Modelled from the spec: running the fair-price EMA over a sample
sequence; the first sample initializes the average, each later sample is a
pair of price and elapsed time since the previous sample. -/
noncomputable def emaRun (windowMs p0 : ℝ) (rest : List (ℝ × ℝ)) : ℝ :=
  rest.foldl (fun ema pr => emaStep windowMs ema pr.1 pr.2) p0

theorem roundDownTo_le {step x : ℚ} (hstep : 0 < step) : roundDownTo step x ≤ x := by
  unfold roundDownTo
  calc step * (⌊x / step⌋ : ℤ) ≤ step * (x / step) := by
        have := Int.floor_le (x / step)
        exact mul_le_mul_of_nonneg_left this hstep.le
    _ = x := mul_div_cancel₀ x hstep.ne'

theorem le_roundUpTo {step x : ℚ} (hstep : 0 < step) : x ≤ roundUpTo step x := by
  unfold roundUpTo
  calc x = step * (x / step) := (mul_div_cancel₀ x hstep.ne').symm
    _ ≤ step * (⌈x / step⌉ : ℤ) := by
        have := Int.le_ceil (x / step)
        exact mul_le_mul_of_nonneg_left this hstep.le

theorem roundDownTo_nonneg {step x : ℚ} (hstep : 0 < step) (hx : 0 ≤ x) :
    0 ≤ roundDownTo step x := by
  unfold roundDownTo
  have : (0 : ℚ) ≤ (⌊x / step⌋ : ℤ) := by
    exact_mod_cast Int.floor_nonneg.mpr (div_nonneg hx hstep.le)
  exact mul_nonneg hstep.le this

theorem toBaseUnits_nonneg {lot usd price : ℚ} (hlot : 0 < lot) (husd : 0 ≤ usd)
    (hprice : 0 ≤ price) : 0 ≤ toBaseUnits lot usd price :=
  roundDownTo_nonneg hlot (div_nonneg husd hprice)

theorem toBaseUnits_mul_le {lot usd price : ℚ} (hlot : 0 < lot) (husd : 0 ≤ usd)
    (hprice : 0 ≤ price) : toBaseUnits lot usd price * price ≤ usd := by
  rcases eq_or_lt_of_le hprice with h0 | hpos
  · rw [← h0, mul_zero]; exact husd
  · have h1 : toBaseUnits lot usd price ≤ usd / price := roundDownTo_le hlot
    calc toBaseUnits lot usd price * price ≤ (usd / price) * price :=
          mul_le_mul_of_nonneg_right h1 hprice
      _ = usd := div_mul_cancel₀ usd hpos.ne'

theorem shouldUpdateOrders_iff (qf : QuoterFns) (orders : List OrderRec) {fp : ℚ}
    (hfp0 : fp ≠ 0) :
    shouldUpdateOrders qf orders (some fp) = true ↔
      orders = [] ∨ ∃ o ∈ orders, qf.isOrderStale o.price o.side fp = true := by
  cases orders with
  | nil => simp [shouldUpdateOrders]
  | cons a l => simp [shouldUpdateOrders, hfp0, List.any_eq_true]

theorem foldl_min_le_init (l : List ℝ) (a : ℝ) : l.foldl min a ≤ a := by
  induction l generalizing a with
  | nil => exact le_refl a
  | cons b t ih => exact le_trans (ih (min a b)) (min_le_left a b)

theorem foldl_min_le_mem {l : List ℝ} {x : ℝ} (hx : x ∈ l) (a : ℝ) :
    l.foldl min a ≤ x := by
  induction l generalizing a with
  | nil => cases hx
  | cons b t ih =>
    rcases List.mem_cons.mp hx with h | h
    · subst h
      exact le_trans (foldl_min_le_init t (min a x)) (min_le_right a x)
    · exact ih h (min a b)

theorem init_le_foldl_max (l : List ℝ) (a : ℝ) : a ≤ l.foldl max a := by
  induction l generalizing a with
  | nil => exact le_refl a
  | cons b t ih => exact le_trans (le_max_left a b) (ih (max a b))

theorem mem_le_foldl_max {l : List ℝ} {x : ℝ} (hx : x ∈ l) (a : ℝ) :
    x ≤ l.foldl max a := by
  induction l generalizing a with
  | nil => cases hx
  | cons b t ih =>
    rcases List.mem_cons.mp hx with h | h
    · subst h
      exact le_trans (le_max_right a x) (init_le_foldl_max t (max a x))
    · exact ih h (max a b)

theorem emaStep_mem_Icc {windowMs ema p dt lo hi : ℝ} (hw : 0 < windowMs)
    (hdt : 0 ≤ dt) (hlo : lo ≤ ema) (hlop : lo ≤ p) (hhi : ema ≤ hi)
    (hhip : p ≤ hi) : lo ≤ emaStep windowMs ema p dt ∧ emaStep windowMs ema p dt ≤ hi := by
  have hαpos : 0 ≤ 1 - Real.exp (-(dt / windowMs)) := by
    have : Real.exp (-(dt / windowMs)) ≤ 1 :=
      Real.exp_le_one_iff.mpr (neg_nonpos.mpr (div_nonneg hdt hw.le))
    linarith
  have hαle : 1 - Real.exp (-(dt / windowMs)) ≤ 1 := by
    have := Real.exp_pos (-(dt / windowMs))
    linarith
  unfold emaStep
  constructor
  · nlinarith [mul_nonneg hαpos (sub_nonneg.mpr hlop),
      mul_nonneg (sub_nonneg.mpr hαle) (sub_nonneg.mpr hlo)]
  · nlinarith [mul_nonneg hαpos (sub_nonneg.mpr hhip),
      mul_nonneg (sub_nonneg.mpr hαle) (sub_nonneg.mpr hhi)]

theorem emaRun_mem_Icc {windowMs lo hi : ℝ} (hw : 0 < windowMs) :
    ∀ (rest : List (ℝ × ℝ)) (p0 : ℝ), (∀ pr ∈ rest, 0 ≤ pr.2) →
      lo ≤ p0 → p0 ≤ hi → (∀ pr ∈ rest, lo ≤ pr.1 ∧ pr.1 ≤ hi) →
      lo ≤ emaRun windowMs p0 rest ∧ emaRun windowMs p0 rest ≤ hi := by
  intro rest
  induction rest with
  | nil => intro p0 _ hlo hhi _; exact ⟨hlo, hhi⟩
  | cons pr t ih =>
    intro p0 hdt hlo hhi hmem
    have hpr := hmem pr (List.mem_cons_self pr t)
    have hstep := emaStep_mem_Icc hw (hdt pr (List.mem_cons_self pr t)) hlo hpr.1 hhi hpr.2
    have := ih (emaStep windowMs p0 pr.1 pr.2)
      (fun q hq => hdt q (List.mem_cons_of_mem pr hq)) hstep.1 hstep.2
      (fun q hq => hmem q (List.mem_cons_of_mem pr hq))
    simpa [emaRun] using this

/-- C1: for every long position whose absolute notional is at or above
maxPositionUsd, quote generation suppresses the side that would increase the
long (the bid) while the reducing side (the ask) is still quoted. -/
theorem C1_long_at_max_bid_suppressed_ask_quoted (cfg : MMConfig) (mkt : Market)
    (fp e : ℚ) (hct : 0 < cfg.closeThresholdUsd)
    (hinv : cfg.closeThresholdUsd ≤ cfg.maxPositionUsd)
    (he : cfg.maxPositionUsd ≤ e) :
    (generateQuotes cfg mkt fp e).bid = none ∧
    (generateQuotes cfg mkt fp e).ask ≠ none := by
  have he0 : 0 < e := lt_of_lt_of_le hct (le_trans hinv he)
  have habs : cfg.closeThresholdUsd ≤ |e| := by
    rw [abs_of_pos he0]
    exact le_trans hinv he
  simp [generateQuotes, habs, he0]

/-- C1 witness: maxPositionUsd 2000, long notional 2100, fair price 50000:
the bid is suppressed and the ask is still quoted. -/
theorem C1_witness :
    ((0:ℚ) < 500 ∧ (500:ℚ) ≤ 2000 ∧ (2000:ℚ) ≤ 2100) ∧
    ((generateQuotes ⟨10, 5, 100, 500, 2000, 1000, 1/10⟩ ⟨1, 1/1000⟩ 50000 2100).bid = none ∧
     (generateQuotes ⟨10, 5, 100, 500, 2000, 1000, 1/10⟩ ⟨1, 1/1000⟩ 50000 2100).ask ≠ none) :=
  ⟨⟨by norm_num, by norm_num, by norm_num⟩,
   C1_long_at_max_bid_suppressed_ask_quoted ⟨10, 5, 100, 500, 2000, 1000, 1/10⟩ ⟨1, 1/1000⟩
     50000 2100 (by norm_num) (by norm_num) (by norm_num)⟩

/-- C2: with positive equity, a running maker whose margin ratio
availableMargin / equity is below minMarginRatio transitions to paused and
cancels all resting orders, and a paused maker returns to running exactly
when the ratio is at least minMarginRatio * 1.2. -/
theorem C2_margin_pause_resume (cfg : MMConfig) (cf : Bool) (acct : Account)
    (s : MMState) (heq : 0 < acct.equity) (hmin : 0 ≤ cfg.minMarginRatio) :
    (s.state = MMLifecycle.running →
      acct.availableMargin / acct.equity < cfg.minMarginRatio →
      (checkMarginRatio cfg cf acct s).1.state = MMLifecycle.paused ∧
      Action.cancelAll ∈ (checkMarginRatio cfg cf acct s).2 ∧
      (cf = false → (checkMarginRatio cfg cf acct s).1.currentOrders = [])) ∧
    (s.state = MMLifecycle.paused →
      ((checkMarginRatio cfg cf acct s).1.state = MMLifecycle.running ↔
        cfg.minMarginRatio * 1.2 ≤ acct.availableMargin / acct.equity)) := by
  constructor
  · intro hrun hlt
    cases cf <;> simp [checkMarginRatio, mmCancelAllOrders, heq, hrun, hlt]
  · intro hp
    rcases lt_or_le (acct.availableMargin / acct.equity) cfg.minMarginRatio with hlt | hge
    · have h12 : ¬ cfg.minMarginRatio * 1.2 ≤ acct.availableMargin / acct.equity := by
        intro hc
        nlinarith
      simp [checkMarginRatio, heq, hlt, hp, h12]
    · have hnl : ¬ acct.availableMargin / acct.equity < cfg.minMarginRatio := not_lt.mpr hge
      by_cases h12 : cfg.minMarginRatio * 1.2 ≤ acct.availableMargin / acct.equity
      · simp [checkMarginRatio, heq, hnl, hp, h12]
      · simp [checkMarginRatio, heq, hnl, hp, h12]

/-- C2 witness: minMarginRatio 0.1, equity 1000, available margin 80 (ratio
0.08): a running maker with one resting order pauses, requests a cancel of
all orders and clears its tracked list. -/
theorem C2_witness :
    ((0:ℚ) < (1000:ℚ) ∧ (0:ℚ) ≤ (1/10:ℚ) ∧ (80:ℚ)/1000 < (1/10:ℚ)) ∧
    ((checkMarginRatio ⟨10, 5, 100, 500, 2000, 1000, 1/10⟩ false ⟨1000, 80⟩
        { initMMState with state := MMLifecycle.running,
                           currentOrders := [⟨49975, Side.buy, 1/500⟩] }).1.state =
        MMLifecycle.paused ∧
      Action.cancelAll ∈ (checkMarginRatio ⟨10, 5, 100, 500, 2000, 1000, 1/10⟩ false ⟨1000, 80⟩
        { initMMState with state := MMLifecycle.running,
                           currentOrders := [⟨49975, Side.buy, 1/500⟩] }).2 ∧
      (false = false → (checkMarginRatio ⟨10, 5, 100, 500, 2000, 1000, 1/10⟩ false ⟨1000, 80⟩
        { initMMState with state := MMLifecycle.running,
                           currentOrders := [⟨49975, Side.buy, 1/500⟩] }).1.currentOrders = [])) :=
  ⟨⟨by norm_num, by norm_num, by norm_num⟩,
   (C2_margin_pause_resume ⟨10, 5, 100, 500, 2000, 1000, 1/10⟩ false ⟨1000, 80⟩
      { initMMState with state := MMLifecycle.running,
                         currentOrders := [⟨49975, Side.buy, 1/500⟩] }
      (by norm_num) (by norm_num)).1 rfl (by norm_num)⟩

/-- C9: handleError issues no external request and changes nothing except
the error counter, which it increments, and the lifecycle state, which it
sets to paused exactly when the incremented counter reaches maxErrors; in
particular no order cancellation happens and the tracked orders stay. -/
theorem C9_handleError_frame (s : MMState) :
    (handleError s).2 = [] ∧
    (handleError s).1.currentOrders = s.currentOrders ∧
    (handleError s).1.lastMarginRatio = s.lastMarginRatio ∧
    (handleError s).1.lastUpdateTime = s.lastUpdateTime ∧
    (handleError s).1.mainLoopActive = s.mainLoopActive ∧
    (handleError s).1.orderSyncActive = s.orderSyncActive ∧
    (handleError s).1.marginCheckActive = s.marginCheckActive ∧
    (handleError s).1.errorCount = s.errorCount + 1 ∧
    (maxErrors ≤ s.errorCount + 1 → (handleError s).1.state = MMLifecycle.paused) ∧
    (s.errorCount + 1 < maxErrors → (handleError s).1.state = s.state) := by
  simp only [handleError]
  split_ifs with h
  · exact ⟨rfl, rfl, rfl, rfl, rfl, rfl, rfl, rfl, fun _ => rfl,
      fun hc => absurd h (not_le.mpr hc)⟩
  · exact ⟨rfl, rfl, rfl, rfl, rfl, rfl, rfl, rfl, fun hc => absurd hc h, fun _ => rfl⟩

/-- C9 witness: tripping the breaker at error count 9 pauses the maker while
the tracked resting order is untouched and no request is issued. -/
theorem C9_witness :
    maxErrors ≤ 9 + 1 ∧
    ((handleError ⟨MMLifecycle.running, [⟨49975, Side.buy, 1/500⟩], 9, 1, 0,
        true, true, true⟩).2 = [] ∧
     (handleError ⟨MMLifecycle.running, [⟨49975, Side.buy, 1/500⟩], 9, 1, 0,
        true, true, true⟩).1.currentOrders = [⟨49975, Side.buy, 1/500⟩] ∧
     (handleError ⟨MMLifecycle.running, [⟨49975, Side.buy, 1/500⟩], 9, 1, 0,
        true, true, true⟩).1.state = MMLifecycle.paused) := by
  have h := C9_handleError_frame
    ⟨MMLifecycle.running, [⟨49975, Side.buy, 1/500⟩], 9, 1, 0, true, true, true⟩
  exact ⟨by decide, h.1, h.2.1, h.2.2.2.2.2.2.2.2.1 (by decide)⟩

/-- C3: an exception thrown inside a quoting tick is routed to the catch
handler, which increments the error counter without issuing requests and
pauses the maker once the counter reaches maxErrors; a fully successful
quoting iteration resets the counter to 0. -/
theorem C3_error_counter_circuit_breaker (cfg : MMConfig) (qf : QuoterFns)
    (env : TickEnv) (s : MMState) (fp : ℚ)
    (hrun : s.state = MMLifecycle.running)
    (hthr : cfg.updateThrottleMs ≤ env.now - s.lastUpdateTime)
    (hfp : env.fairPrice = some fp) (hfp0 : fp ≠ 0)
    (hmax : isAtMax cfg env.signedNotional = false)
    (hupd : shouldUpdateOrders qf s.currentOrders env.fairPrice = true) :
    ((mainLoopTick cfg qf true env s).1.errorCount = s.errorCount + 1 ∧
     (mainLoopTick cfg qf true env s).2 = [] ∧
     (maxErrors ≤ s.errorCount + 1 →
       (mainLoopTick cfg qf true env s).1.state = MMLifecycle.paused)) ∧
    (mainLoopTick cfg qf false env s).1.errorCount = 0 := by
  constructor
  · simp only [mainLoopTick, if_true, handleError]
    split_ifs with h
    · exact ⟨rfl, rfl, fun _ => rfl⟩
    · exact ⟨rfl, rfl, fun hc => absurd hc h⟩
  · have hnlt : ¬ env.now - s.lastUpdateTime < cfg.updateThrottleMs := not_lt.mpr hthr
    have hupd2 : shouldUpdateOrders qf s.currentOrders (some fp) = true := by
      rw [← hfp]
      exact hupd
    simp [mainLoopTick, runMainLoop, hrun, hnlt, hfp, hfp0, hmax, hupd2, mmCancelAllOrders]

/-- C3 witness: a running maker with error count 9 pauses on a throwing
tick, and the same maker on a successful full iteration resets the counter
to 0. -/
theorem C3_witness :
    ((MMState.mk MMLifecycle.running [] 9 1 0 true true true).state = MMLifecycle.running ∧
     (1000:ℤ) ≤ 2000 - 0 ∧
     (TickEnv.mk 2000 (some 50000) 0 false).fairPrice = some 50000 ∧ (50000:ℚ) ≠ 0 ∧
     isAtMax ⟨10, 5, 100, 500, 2000, 1000, 1/10⟩ 0 = false ∧
     shouldUpdateOrders (specQuoter ⟨10, 5, 100, 500, 2000, 1000, 1/10⟩ ⟨1, 1/1000⟩)
       [] (some 50000) = true) ∧
    ((mainLoopTick ⟨10, 5, 100, 500, 2000, 1000, 1/10⟩
        (specQuoter ⟨10, 5, 100, 500, 2000, 1000, 1/10⟩ ⟨1, 1/1000⟩) true
        ⟨2000, some 50000, 0, false⟩
        (MMState.mk MMLifecycle.running [] 9 1 0 true true true)).1.state =
      MMLifecycle.paused ∧
     (mainLoopTick ⟨10, 5, 100, 500, 2000, 1000, 1/10⟩
        (specQuoter ⟨10, 5, 100, 500, 2000, 1000, 1/10⟩ ⟨1, 1/1000⟩) false
        ⟨2000, some 50000, 0, false⟩
        (MMState.mk MMLifecycle.running [] 9 1 0 true true true)).1.errorCount = 0) := by
  have h := C3_error_counter_circuit_breaker ⟨10, 5, 100, 500, 2000, 1000, 1/10⟩
    (specQuoter ⟨10, 5, 100, 500, 2000, 1000, 1/10⟩ ⟨1, 1/1000⟩)
    ⟨2000, some 50000, 0, false⟩ (MMState.mk MMLifecycle.running [] 9 1 0 true true true)
    50000 rfl (by norm_num) rfl (by norm_num) (by decide) rfl
  exact ⟨⟨rfl, by norm_num, rfl, by norm_num, by decide, rfl⟩,
    h.1.2.2 (by decide), h.2⟩

/-- C4: on a quoting tick in running state with a usable fair price and a
position below max, the orchestrator cancels and replaces exactly when the
tracked order list is empty or some tracked order is stale under the fair
price; when at least one order is tracked and none is stale the tick issues
no request and leaves the tracked orders unchanged. -/
theorem C4_staleness_sole_replace_trigger (cfg : MMConfig) (qf : QuoterFns)
    (env : TickEnv) (s : MMState) (fp : ℚ)
    (hrun : s.state = MMLifecycle.running)
    (hthr : cfg.updateThrottleMs ≤ env.now - s.lastUpdateTime)
    (hfp : env.fairPrice = some fp) (hfp0 : fp ≠ 0)
    (hmax : isAtMax cfg env.signedNotional = false) :
    ((s.currentOrders = [] ∨
        ∃ o ∈ s.currentOrders, qf.isOrderStale o.price o.side fp = true) →
      (runMainLoop cfg qf env s).2 =
        Action.cancelAll ::
          (qf.quoteToOrders (qf.generateQuotes fp env.signedNotional)).map Action.place) ∧
    ((s.currentOrders ≠ [] ∧
        ∀ o ∈ s.currentOrders, qf.isOrderStale o.price o.side fp = false) →
      (runMainLoop cfg qf env s).2 = [] ∧
      (runMainLoop cfg qf env s).1.currentOrders = s.currentOrders) := by
  have hnlt : ¬ env.now - s.lastUpdateTime < cfg.updateThrottleMs := not_lt.mpr hthr
  constructor
  · intro htrig
    have hupd : shouldUpdateOrders qf s.currentOrders (some fp) = true :=
      (shouldUpdateOrders_iff qf s.currentOrders hfp0).mpr htrig
    cases hc : env.cancelFails <;>
      simp [runMainLoop, hrun, hnlt, hfp, hfp0, hmax, hupd, hc, mmCancelAllOrders]
  · rintro ⟨hne, hall⟩
    have hupd : shouldUpdateOrders qf s.currentOrders (some fp) = false := by
      rw [Bool.eq_false_iff]
      intro hT
      rcases (shouldUpdateOrders_iff qf s.currentOrders hfp0).mp hT with h | ⟨o, ho, hst⟩
      · exact hne h
      · rw [hall o ho] at hst
        cases hst
    simp [runMainLoop, hrun, hnlt, hfp, hfp0, hmax, hupd]

/-- C4 witness: with a tracked bid resting exactly at the recomputed target
price (not stale), the tick issues no request and keeps the tracked order. -/
theorem C4_witness :
    ((MMState.mk MMLifecycle.running [⟨49950, Side.buy, 1/500⟩] 0 1 0 true true true).state =
        MMLifecycle.running ∧
     (1000:ℤ) ≤ 2000 - 0 ∧ (50000:ℚ) ≠ 0 ∧
     isAtMax ⟨10, 5, 100, 500, 2000, 1000, 1/10⟩ 0 = false ∧
     [OrderRec.mk 49950 Side.buy (1/500)] ≠ [] ∧
     (specQuoter ⟨10, 5, 100, 500, 2000, 1000, 1/10⟩ ⟨1, 1/1000⟩).isOrderStale
       49950 Side.buy 50000 = false) ∧
    ((runMainLoop ⟨10, 5, 100, 500, 2000, 1000, 1/10⟩
        (specQuoter ⟨10, 5, 100, 500, 2000, 1000, 1/10⟩ ⟨1, 1/1000⟩)
        ⟨2000, some 50000, 0, false⟩
        (MMState.mk MMLifecycle.running [⟨49950, Side.buy, 1/500⟩] 0 1 0 true true true)).2 = [] ∧
     (runMainLoop ⟨10, 5, 100, 500, 2000, 1000, 1/10⟩
        (specQuoter ⟨10, 5, 100, 500, 2000, 1000, 1/10⟩ ⟨1, 1/1000⟩)
        ⟨2000, some 50000, 0, false⟩
        (MMState.mk MMLifecycle.running [⟨49950, Side.buy, 1/500⟩] 0 1 0 true true true)).1.currentOrders =
       [⟨49950, Side.buy, 1/500⟩]) := by
  have hstale : (specQuoter ⟨10, 5, 100, 500, 2000, 1000, 1/10⟩ ⟨1, 1/1000⟩).isOrderStale
      49950 Side.buy 50000 = false := by
    simp only [specQuoter, isOrderStale, roundDownTo]
    norm_num
  have h := (C4_staleness_sole_replace_trigger ⟨10, 5, 100, 500, 2000, 1000, 1/10⟩
    (specQuoter ⟨10, 5, 100, 500, 2000, 1000, 1/10⟩ ⟨1, 1/1000⟩)
    ⟨2000, some 50000, 0, false⟩
    (MMState.mk MMLifecycle.running [⟨49950, Side.buy, 1/500⟩] 0 1 0 true true true)
    50000 rfl (by norm_num) rfl (by norm_num) (by decide)).2
    ⟨by decide, by
      intro o ho
      rw [List.mem_singleton] at ho
      subst ho
      exact hstale⟩
  exact ⟨⟨rfl, by norm_num, by norm_num, by decide, by decide, hstale⟩, h.1, h.2⟩

/-- C5 counterexample: when the orderbook unsubscribe call fails during
stop, the exchange session disconnect in the same try/catch block is
skipped, so the cleanup steps are not all isolated from one another. -/
theorem C5_counterexample :
    Action.exchangeDisconnect ∉ (stop ⟨false, true, false, false⟩ initMMState).2 := by
  decide

/-- C5 amended: stop always ends in state stopped, never propagates a
cleanup sub-failure (it is a total function of the failure flags), is
idempotent, attempts order cancellation, orderbook unsubscribe and feed
disconnect in three isolated blocks, and disconnects the exchange session
provided the orderbook unsubscribe in the same block did not fail. -/
theorem C5_stop_stopped_isolated_blocks (env : StopEnv) (s : MMState) :
    (stop env s).1.state = MMLifecycle.stopped ∧
    (stop env (stop env s).1).1 = (stop env s).1 ∧
    Action.cancelAll ∈ (stop env s).2 ∧
    Action.unsubscribe ∈ (stop env s).2 ∧
    Action.feedDisconnect ∈ (stop env s).2 ∧
    (env.unsubscribeFails = false → Action.exchangeDisconnect ∈ (stop env s).2) := by
  rcases env with ⟨cf, uf, df, ff⟩
  cases cf <;> cases uf <;> simp [stop, mmCancelAllOrders]

/-- C5 witness: with no cleanup failure, stop requests the cancel, the
unsubscribe, the exchange disconnect and the feed disconnect. -/
theorem C5_witness :
    (StopEnv.mk false false false false).unsubscribeFails = false ∧
    Action.exchangeDisconnect ∈ (stop ⟨false, false, false, false⟩ initMMState).2 := by
  have h := C5_stop_stopped_isolated_blocks ⟨false, false, false, false⟩ initMMState
  exact ⟨rfl, h.2.2.2.2.2 rfl⟩

/-- C6: in close mode (absolute exposure at or above closeThresholdUsd)
exactly one side is quoted, the reducing one, with reduceOnly true and size
min(orderSizeUsd, absolute exposure) converted to base units, which never
exceeds that cap; below closeThresholdUsd and below maxPositionUsd both
sides are quoted. -/
theorem C6_close_mode_exactly_one_reducing_side (cfg : MMConfig) (mkt : Market)
    (fp e : ℚ) (hfp : 0 < fp) (htick : 0 < mkt.tickSize) (hlot : 0 < mkt.lotSize)
    (hos : 0 ≤ cfg.orderSizeUsd) (htp0 : 0 ≤ cfg.takeProfitBps)
    (htp1 : cfg.takeProfitBps < 10000) :
    (cfg.closeThresholdUsd ≤ |e| → 0 < e →
      (generateQuotes cfg mkt fp e).bid = none ∧
      ∃ a, (generateQuotes cfg mkt fp e).ask = some a ∧ a.reduceOnly = true ∧
        a.size = toBaseUnits mkt.lotSize (min cfg.orderSizeUsd |e|) a.price ∧
        a.size * a.price ≤ min cfg.orderSizeUsd |e|) ∧
    (cfg.closeThresholdUsd ≤ |e| → e < 0 →
      (generateQuotes cfg mkt fp e).ask = none ∧
      ∃ b, (generateQuotes cfg mkt fp e).bid = some b ∧ b.reduceOnly = true ∧
        b.size = toBaseUnits mkt.lotSize (min cfg.orderSizeUsd |e|) b.price ∧
        b.size * b.price ≤ min cfg.orderSizeUsd |e|) ∧
    (|e| < cfg.closeThresholdUsd → |e| < cfg.maxPositionUsd →
      (generateQuotes cfg mkt fp e).bid ≠ none ∧
      (generateQuotes cfg mkt fp e).ask ≠ none) := by
  have hmin0 : 0 ≤ min cfg.orderSizeUsd |e| := le_min hos (abs_nonneg e)
  refine ⟨?_, ?_, ?_⟩
  · intro hclose he0
    have hbid : (generateQuotes cfg mkt fp e).bid = none := by
      simp [generateQuotes, hclose, he0]
    have hask : (generateQuotes cfg mkt fp e).ask =
        some ⟨roundUpTo mkt.tickSize (fp * (1 + cfg.takeProfitBps / 10000)),
              toBaseUnits mkt.lotSize (min cfg.orderSizeUsd |e|)
                (roundUpTo mkt.tickSize (fp * (1 + cfg.takeProfitBps / 10000))), true⟩ := by
      simp [generateQuotes, hclose, he0]
    have hp : 0 < roundUpTo mkt.tickSize (fp * (1 + cfg.takeProfitBps / 10000)) := by
      have h1 : 0 < 1 + cfg.takeProfitBps / 10000 := by
        have : (0:ℚ) ≤ cfg.takeProfitBps / 10000 := by positivity
        linarith
      exact lt_of_lt_of_le (mul_pos hfp h1) (le_roundUpTo htick)
    exact ⟨hbid, _, hask, rfl, rfl, toBaseUnits_mul_le hlot hmin0 hp.le⟩
  · intro hclose he0
    have hne : ¬ 0 < e := not_lt.mpr he0.le
    have hask : (generateQuotes cfg mkt fp e).ask = none := by
      simp [generateQuotes, hclose, hne, he0]
    have hbid : (generateQuotes cfg mkt fp e).bid =
        some ⟨roundDownTo mkt.tickSize (fp * (1 - cfg.takeProfitBps / 10000)),
              toBaseUnits mkt.lotSize (min cfg.orderSizeUsd |e|)
                (roundDownTo mkt.tickSize (fp * (1 - cfg.takeProfitBps / 10000))), true⟩ := by
      simp [generateQuotes, hclose, hne, he0]
    have hp : 0 ≤ roundDownTo mkt.tickSize (fp * (1 - cfg.takeProfitBps / 10000)) := by
      have h1 : 0 < 1 - cfg.takeProfitBps / 10000 := by
        have : cfg.takeProfitBps / 10000 < 1 := by
          rw [div_lt_one (by norm_num : (0:ℚ) < 10000)]
          exact htp1
        linarith
      exact roundDownTo_nonneg htick (mul_pos hfp h1).le
    exact ⟨hask, _, hbid, rfl, rfl, toBaseUnits_mul_le hlot hmin0 hp⟩
  · intro h1 h2
    have hnc : ¬ cfg.closeThresholdUsd ≤ |e| := not_le.mpr h1
    have hnm : ¬ cfg.maxPositionUsd ≤ |e| := not_le.mpr h2
    simp [generateQuotes, hnc, hnm]

/-- C6 witness: closeThresholdUsd 500, long notional 600, fair price 50000:
only the reduce-only ask is quoted and its size respects the
min(orderSizeUsd, 600) cap; at notional 300 both sides are quoted. -/
theorem C6_witness :
    ((0:ℚ) < 50000 ∧ (500:ℚ) ≤ |(600:ℚ)| ∧ (0:ℚ) < 600 ∧
     |(300:ℚ)| < 500 ∧ |(300:ℚ)| < 2000) ∧
    ((generateQuotes ⟨10, 5, 100, 500, 2000, 1000, 1/10⟩ ⟨1, 1/1000⟩ 50000 600).bid = none ∧
     (∃ a, (generateQuotes ⟨10, 5, 100, 500, 2000, 1000, 1/10⟩ ⟨1, 1/1000⟩ 50000 600).ask =
         some a ∧ a.reduceOnly = true ∧
       a.size = toBaseUnits (1/1000) (min 100 |(600:ℚ)|) a.price ∧
       a.size * a.price ≤ min 100 |(600:ℚ)|) ∧
     (generateQuotes ⟨10, 5, 100, 500, 2000, 1000, 1/10⟩ ⟨1, 1/1000⟩ 50000 300).bid ≠ none ∧
     (generateQuotes ⟨10, 5, 100, 500, 2000, 1000, 1/10⟩ ⟨1, 1/1000⟩ 50000 300).ask ≠ none) := by
  have habs6 : (500:ℚ) ≤ |(600:ℚ)| := by
    rw [abs_of_pos (by norm_num : (0:ℚ) < 600)]
    norm_num
  have habs3a : |(300:ℚ)| < 500 := by
    rw [abs_of_pos (by norm_num : (0:ℚ) < 300)]
    norm_num
  have habs3b : |(300:ℚ)| < 2000 := by
    rw [abs_of_pos (by norm_num : (0:ℚ) < 300)]
    norm_num
  have h6 := C6_close_mode_exactly_one_reducing_side ⟨10, 5, 100, 500, 2000, 1000, 1/10⟩
    ⟨1, 1/1000⟩ 50000 600 (by norm_num) (by norm_num) (by norm_num) (by norm_num)
    (by norm_num) (by norm_num)
  have h3 := C6_close_mode_exactly_one_reducing_side ⟨10, 5, 100, 500, 2000, 1000, 1/10⟩
    ⟨1, 1/1000⟩ 50000 300 (by norm_num) (by norm_num) (by norm_num) (by norm_num)
    (by norm_num) (by norm_num)
  have hc6 := h6.1 habs6 (by norm_num)
  have hc3 := h3.2.2 habs3a habs3b
  exact ⟨⟨by norm_num, habs6, by norm_num, habs3a, habs3b⟩, hc6.1, hc6.2, hc3.1, hc3.2⟩

/-- C7: the fair-price EMA initialized at the first sample and updated with
alpha = 1 - exp(-dt / windowMs) over non-negative inter-arrival times never
leaves the closed range of the samples seen so far. -/
theorem C7_ema_within_sample_range (windowMs p0 : ℝ) (rest : List (ℝ × ℝ))
    (hw : 0 < windowMs) (hdt : ∀ pr ∈ rest, 0 ≤ pr.2) :
    (rest.map Prod.fst).foldl min p0 ≤ emaRun windowMs p0 rest ∧
    emaRun windowMs p0 rest ≤ (rest.map Prod.fst).foldl max p0 := by
  apply emaRun_mem_Icc hw rest p0 hdt
  · exact foldl_min_le_init _ _
  · exact init_le_foldl_max _ _
  · intro pr hpr
    exact ⟨foldl_min_le_mem (List.mem_map_of_mem Prod.fst hpr) p0,
           mem_le_foldl_max (List.mem_map_of_mem Prod.fst hpr) p0⟩

/-- C7 witness: samples 100, then 101 after 1000 ms, then 99 after 500 ms
with window 1000 ms: the EMA stays within the sample range. -/
theorem C7_witness :
    ((0:ℝ) < 1000 ∧ ∀ pr ∈ [((101:ℝ), (1000:ℝ)), ((99:ℝ), (500:ℝ))], 0 ≤ pr.2) ∧
    (([((101:ℝ), (1000:ℝ)), ((99:ℝ), (500:ℝ))].map Prod.fst).foldl min 100 ≤
       emaRun 1000 100 [((101:ℝ), (1000:ℝ)), ((99:ℝ), (500:ℝ))] ∧
     emaRun 1000 100 [((101:ℝ), (1000:ℝ)), ((99:ℝ), (500:ℝ))] ≤
       ([((101:ℝ), (1000:ℝ)), ((99:ℝ), (500:ℝ))].map Prod.fst).foldl max 100) :=
  ⟨⟨by norm_num, by intro pr hpr; fin_cases hpr <;> norm_num⟩,
   C7_ema_within_sample_range 1000 100 [((101:ℝ), (1000:ℝ)), ((99:ℝ), (500:ℝ))]
     (by norm_num) (by intro pr hpr; fin_cases hpr <;> norm_num)⟩

/-- C8: the Aftermath cancelAllOrders on an already-empty open-order set
sends no cancellation request and leaves the set empty, so a second call
right after a first one requests nothing and changes nothing. -/
theorem C8_cancelAllOrders_idempotent (v : List AftOrder) :
    aftCancelAllOrders [] = ([], []) ∧
    aftCancelAllOrders (aftCancelAllOrders v).1 = ((aftCancelAllOrders v).1, []) := by
  constructor
  · rfl
  · cases v <;> simp [aftCancelAllOrders]

/-- C10: checkMarginRatio keeps the stored margin ratio whenever equity is
not positive, so the ratio never comes from a division by a non-positive
equity, and the stored ratio starts at 1. -/
theorem C10_margin_division_guarded (cfg : MMConfig) (cf : Bool) (acct : Account)
    (s : MMState) (heq : acct.equity ≤ 0) :
    (checkMarginRatio cfg cf acct s).1.lastMarginRatio = s.lastMarginRatio ∧
    initMMState.lastMarginRatio = 1 := by
  have hne : ¬ 0 < acct.equity := not_lt.mpr heq
  refine ⟨?_, rfl⟩
  unfold checkMarginRatio mmCancelAllOrders
  simp only [hne, if_false]
  split_ifs <;> rfl

/-- C10 witness: with equity 0 the stored ratio of the initial state is
retained, and it is 1. -/
theorem C10_witness :
    (Account.mk 0 50).equity ≤ 0 ∧
    ((checkMarginRatio ⟨10, 5, 100, 500, 2000, 1000, 1/10⟩ false ⟨0, 50⟩
        initMMState).1.lastMarginRatio = initMMState.lastMarginRatio ∧
     initMMState.lastMarginRatio = 1) :=
  ⟨by norm_num, C10_margin_division_guarded ⟨10, 5, 100, 500, 2000, 1000, 1/10⟩ false ⟨0, 50⟩
    initMMState (by norm_num)⟩

end AftermathMM
